import Mathlib

/-!
Shallow embedding of the `gatus_status` cog (`src/gatus_status/main.py`).

Modelling conventions:
* `datetime` instants and `timedelta` spans are modelled as `Int` (seconds);
  subtraction of instants yields a span, exactly as in the source.
* `datetime.now(timezone.utc)` is passed explicitly as a `now : Int` parameter.
* Python code that raises on some inputs (indexing `history[-1]` on an empty
  list, `re.search` on a `None` description, `fields[0]` on an empty fields
  list) is modelled with `Option` / `Except`.
* Floating point percentages are modelled as exact rationals `ℚ`.
* In `GatusTimeline.add_entry` the source's final `else:` branch has an empty
  body (a syntax slip in the source); the enclosing code and intent make the
  branch a no-op, and it is modelled as one.
-/

namespace GatusStatus

/-- Dataclass `GatusData`: one parsed observation. -/
structure GatusData where
  labber : String
  date : Int
  status : Bool
deriving DecidableEq, Repr

/-- Dataclass `GatusEvent`: one completed interval of a timeline. -/
structure GatusEvent where
  length : Int
  end_data : Int
  status : Bool
deriving DecidableEq, Repr

/-- Class `GatusTimeline`: per-entity name plus the mutable `history` list. -/
structure GatusTimeline where
  name : String
  history : List GatusEvent
deriving DecidableEq, Repr

namespace GatusTimeline

/-- Method `GatusTimeline.add_entry`: seed an empty history with a zero-length
interval of complemented status; on a nonempty history append a new interval
exactly when the last interval's status equals the incoming status; otherwise
leave the timeline unchanged. -/
def add_entry (tl : GatusTimeline) (entry : GatusData) : GatusTimeline :=
  if h : tl.history = [] then
    { tl with history := [{ length := 0, end_data := entry.date, status := !entry.status }] }
  else
    let last_event := tl.history.getLast h
    if last_event.status = entry.status then
      { tl with history := tl.history ++
        [{ length := entry.date - last_event.end_data, end_data := entry.date,
           status := !entry.status }] }
    else
      tl

/-- Property `GatusTimeline.end` (renamed, `end` is a Lean keyword): the open
interval from the last recorded boundary to `now`.  Indexing `history[-1]`
raises on an empty history, modelled by `Option`. -/
def end_ (tl : GatusTimeline) (now : Int) : Option GatusEvent :=
  tl.history.getLast?.map fun last =>
    { length := now - last.end_data, end_data := now, status := !last.status }

/-- Body of the `GatusTimeline.from_data` loop: fold one observation into a dict of timelines
keyed by entity name (insertion-ordered, modelled as a list with unique
names), creating a timeline on first sight of a name. -/
def addToTimelines (tls : List GatusTimeline) (entry : GatusData) : List GatusTimeline :=
  if tls.any (fun t => t.name == entry.labber) then
    tls.map (fun t => if t.name == entry.labber then t.add_entry entry else t)
  else
    tls ++ [GatusTimeline.add_entry { name := entry.labber, history := [] } entry]

/-- Classmethod `GatusTimeline.from_data`: build all timelines; the returned order is the
dict's insertion order (first occurrence of each entity name). -/
def from_data (gatus_data : List GatusData) : List GatusTimeline :=
  gatus_data.foldl addToTimelines []

/-- Method `GatusTimeline.total_events`: count of history intervals with the given
status, minus one when the first interval has that status, plus one when the
open interval has it.  `self.end` raises on an empty history. -/
def total_events (tl : GatusTimeline) (now : Int) (event : Bool) : Option Int :=
  (tl.end_ now).map fun e =>
    let offset : Int :=
      match tl.history.head? with
      | some h0 => if h0.status = event then -1 else 0
      | none => 0
    let offset : Int := if e.status = event then offset + 1 else offset
    ((tl.history.filter (fun ev => ev.status == event)).length : Int) + offset

/-- Method `GatusTimeline.total_time`: sum of lengths of history intervals with the
given status, plus the open interval's length when its status matches. -/
def total_time (tl : GatusTimeline) (now : Int) (event : Bool) : Option Int :=
  (tl.end_ now).map fun e =>
    let offset : Int := if e.status = event then e.length else 0
    ((tl.history.filter (fun ev => ev.status == event)).map GatusEvent.length).sum + offset

end GatusTimeline

/-- Uptime percentage as computed in `GatusStatus._create_metrics_embed`
(lines 184–189): `(up / total) * 100` when the total span is positive,
otherwise `100.0`. -/
def uptime_percentage (tl : GatusTimeline) (now : Int) : Option ℚ :=
  match tl.total_time now true, tl.total_time now false with
  | some up, some down =>
    let total := up + down
    if total > 0 then some (((up : ℚ) / (total : ℚ)) * 100) else some 100
  | _, _ => none

/-- The per-entity rows of the metrics embed, in the order the presenter loop
(`for timeline in timelines:`) consumes `GatusTimeline.from_data`'s result. -/
def metrics_rows (data : List GatusData) (now : Int) : List (String × Option ℚ) :=
  (GatusTimeline.from_data data).map fun tl => (tl.name, uptime_percentage tl now)

/-- Field of an embed payload (only its `value` is read by the code). -/
structure EmbedField where
  value : String
deriving DecidableEq, Repr

/-- Embed payload as accessed by `get_gatus_data` and `parse_gatus_embed`:
`title` and `description` may be absent (`None`). -/
structure Embed where
  title : Option String
  description : Option String
  fields : List EmbedField
deriving DecidableEq, Repr

/-- Message record: creation instant plus its embed payloads. -/
structure Message where
  created_at : Int
  embeds : List Embed
deriving DecidableEq, Repr

/-- Python substring containment (`needle in hay`) on explicit char lists. -/
def containsSub (needle : List Char) : List Char → Bool
  | [] => needle.isPrefixOf []
  | c :: rest => needle.isPrefixOf (c :: rest) || containsSub needle rest

/-- Nongreedy group of `re.search(r"alert for (.+?) has been", ...)`: consume
at least one non-newline char, stopping at the first point where the literal
`" has been"` follows. -/
def matchGroupAux : List Char → Option (List Char)
  | [] => none
  | c :: rest =>
    if c = '\n' then none
    else if (" has been".toList).isPrefixOf rest then some [c]
    else (matchGroupAux rest).map (c :: ·)

/-- Leftmost search for the pattern `alert for (.+?) has been`, returning the
captured group: try each start position left to right. -/
def searchAlertFor : List Char → Option (List Char)
  | [] => none
  | c :: rest =>
    if ("alert for ".toList).isPrefixOf (c :: rest) then
      match matchGroupAux ((c :: rest).drop ("alert for ".toList).length) with
      | some g => some g
      | none => searchAlertFor rest
    else searchAlertFor rest

/-- Group 1 of `re.search(r"alert for (.+?) has been", desc)`. -/
def regexSearchAlert (desc : String) : Option String :=
  (searchAlertFor desc.toList).map fun g => ⟨g⟩

/-- Qualifying-marker test of `get_gatus_data`:
`embed.title and ":helmet_with_white_cross: Gatus" in embed.title`. -/
def hasMarker (e : Embed) : Bool :=
  match e.title with
  | none => false
  | some t => containsSub (":helmet_with_white_cross: Gatus".toList) t.toList

/-- Method `GatusStatus.parse_gatus_embed`.  Running `re.search` on a `None`
description raises `TypeError`; `embed.fields[0]` on an empty fields list
raises `IndexError`; both are modelled as `Except.error`. -/
def parse_gatus_embed (embed : Embed) (message_date : Int) : Except String GatusData :=
  match embed.description with
  | none => .error "TypeError"
  | some desc =>
    let name := match regexSearchAlert desc with
      | some n => n
      | none => "Unknown"
    match embed.fields with
    | [] => .error "IndexError"
    | f0 :: _ =>
      let status := containsSub (":white_check_mark:".toList) f0.value.toList
      .ok { labber := name, date := message_date, status := status }

/-- Inner loop of `GatusStatus.get_gatus_data` over one message's embeds. -/
def parseEmbeds (date : Int) : List Embed → Except String (List GatusData)
  | [] => .ok []
  | e :: rest =>
    if hasMarker e then
      match parse_gatus_embed e date with
      | .error s => .error s
      | .ok d => (parseEmbeds date rest).map (d :: ·)
    else parseEmbeds date rest

/-- Method `GatusStatus.get_gatus_data`: parse every marker-carrying embed of
every message in order; the first raised exception propagates. -/
def get_gatus_data : List Message → Except String (List GatusData)
  | [] => .ok []
  | m :: rest =>
    match parseEmbeds m.created_at m.embeds with
    | .error s => .error s
    | .ok ds => (get_gatus_data rest).map (ds ++ ·)

/-- Per-entity fold of `from_data`: the sequence of `add_entry` calls one
entity's observations receive, starting from the freshly constructed
timeline of that entity. -/
def foldEntity (name : String) (l : List GatusData) : GatusTimeline :=
  l.foldl GatusTimeline.add_entry { name := name, history := [] }

/-- Sum of the `length` fields of a history. -/
def sumLengths (h : List GatusEvent) : Int := (h.map GatusEvent.length).sum

/-- Alternation of consecutive completed-interval statuses. -/
def alternating (h : List GatusEvent) : Prop :=
  List.Chain' (fun a b => b.status = !a.status) h

/-- Number of genuine status flips in an observation sequence, given the
reported status of the previous observation. -/
def countFlips : Bool → List GatusData → Nat
  | _, [] => 0
  | prev, e :: rest => (if e.status = prev then 0 else 1) + countFlips e.status rest

/-- Formalization of the spec's ordering claim (§4.2 step 5, §8): presenter
rows are sorted by uptime percentage descending. -/
def sortedByUptimeDesc (rows : List (String × Option ℚ)) : Prop :=
  List.Pairwise (fun a b => ∀ x y, a.2 = some x → b.2 = some y → y ≤ x) rows

/-- Reference definition for the amended ordering claim: entity names in
first-seen (insertion) order of the input sequence. -/
def firstSeenNames (l : List GatusData) : List String :=
  l.foldl (fun ns e => if e.labber ∈ ns then ns else ns ++ [e.labber]) []

namespace GatusTimeline

/-- Behaviour of `add_entry` on an empty history: seed interval. -/
theorem add_entry_nil (tl : GatusTimeline) (e : GatusData) (h : tl.history = []) :
    tl.add_entry e =
      { tl with history := [{ length := 0, end_data := e.date, status := !e.status }] } := by
  unfold add_entry
  rw [dif_pos h]

/-- Behaviour of `add_entry` on a nonempty history, phrased through the
concat decomposition of the history. -/
theorem add_entry_concat (nm : String) (l : List GatusEvent) (a : GatusEvent) (e : GatusData) :
    GatusTimeline.add_entry ⟨nm, l ++ [a]⟩ e =
      (if a.status = e.status then
        ⟨nm, (l ++ [a]) ++ [{ length := e.date - a.end_data, end_data := e.date,
                              status := !e.status }]⟩
      else ⟨nm, l ++ [a]⟩) := by
  have hne : (GatusTimeline.mk nm (l ++ [a])).history ≠ [] := by simp
  unfold add_entry
  rw [dif_neg hne]
  dsimp only
  rw [List.getLast_concat]

/-- Method `add_entry` never produces an empty history. -/
theorem add_entry_ne_nil (tl : GatusTimeline) (e : GatusData) :
    (tl.add_entry e).history ≠ [] := by
  obtain ⟨nm, hist⟩ := tl
  rcases List.eq_nil_or_concat hist with h | ⟨l, a, rfl⟩
  · rw [add_entry_nil _ _ h]
    simp
  · simp only [List.concat_eq_append]
    rw [add_entry_concat]
    split <;> simp

/-- Method `add_entry` preserves the timeline's name. -/
@[simp] theorem add_entry_name (tl : GatusTimeline) (e : GatusData) :
    (tl.add_entry e).name = tl.name := by
  obtain ⟨nm, hist⟩ := tl
  rcases List.eq_nil_or_concat hist with h | ⟨l, a, rfl⟩
  · rw [add_entry_nil _ _ h]
  · simp only [List.concat_eq_append]
    rw [add_entry_concat]
    split <;> rfl

/-- Last interval of the history after `add_entry` always carries the
complement of the processed observation's status. -/
theorem add_entry_getLast? (tl : GatusTimeline) (e : GatusData) :
    ∃ ev, (tl.add_entry e).history.getLast? = some ev ∧ ev.status = !e.status := by
  obtain ⟨nm, hist⟩ := tl
  rcases List.eq_nil_or_concat hist with h | ⟨l, a, rfl⟩
  · rw [add_entry_nil _ _ h]
    exact ⟨_, rfl, rfl⟩
  · simp only [List.concat_eq_append]
    rw [add_entry_concat]
    split
    · refine ⟨{ length := e.date - a.end_data, end_data := e.date, status := !e.status },
        ?_, rfl⟩
      simp [List.getLast?_concat]
    · rename_i hst
      refine ⟨a, by simp [List.getLast?_concat], ?_⟩
      revert hst
      cases a.status <;> cases e.status <;> simp

/-- Method `add_entry` on a nonempty history preserves the first interval. -/
theorem add_entry_head? (tl : GatusTimeline) (e : GatusData) (h : tl.history ≠ []) :
    (tl.add_entry e).history.head? = tl.history.head? := by
  obtain ⟨nm, hist⟩ := tl
  rcases List.eq_nil_or_concat hist with h0 | ⟨l, a, rfl⟩
  · exact absurd h0 h
  · simp only [List.concat_eq_append]
    rw [add_entry_concat]
    split
    · rcases l with _ | ⟨x, xs⟩ <;> simp
    · rfl

/-- History growth of `add_entry`: one interval is appended exactly when the
last interval's status equals the incoming status. -/
theorem add_entry_length (tl : GatusTimeline) (e : GatusData) (le : GatusEvent)
    (h : tl.history.getLast? = some le) :
    (tl.add_entry e).history.length =
      tl.history.length + (if le.status = e.status then 1 else 0) := by
  obtain ⟨nm, hist⟩ := tl
  rcases List.eq_nil_or_concat hist with h0 | ⟨l, a, rfl⟩
  · subst h0; simp at h
  · simp only [List.concat_eq_append] at h ⊢
    rw [List.getLast?_concat] at h
    obtain rfl : a = le := by injection h
    rw [add_entry_concat]
    split <;> rename_i hst <;> simp [hst]

/-- Telescoping step: `add_entry` preserves the first interval and keeps the
sum of completed-interval lengths equal to the span from the first to the
last recorded boundary. -/
theorem add_entry_telescope (tl : GatusTimeline) (e : GatusData) (h0 le : GatusEvent)
    (hh : tl.history.head? = some h0) (hl : tl.history.getLast? = some le)
    (hsum : sumLengths tl.history = le.end_data - h0.end_data) :
    ∃ le2, (tl.add_entry e).history.head? = some h0 ∧
      (tl.add_entry e).history.getLast? = some le2 ∧
      sumLengths (tl.add_entry e).history = le2.end_data - h0.end_data := by
  obtain ⟨nm, hist⟩ := tl
  rcases List.eq_nil_or_concat hist with hn | ⟨l, a, rfl⟩
  · subst hn; simp at hl
  · simp only [List.concat_eq_append] at hh hl hsum ⊢
    rw [List.getLast?_concat] at hl
    obtain rfl : a = le := by injection hl
    rw [add_entry_concat]
    split
    · refine ⟨{ length := e.date - a.end_data, end_data := e.date, status := !e.status },
        ?_, ?_, ?_⟩
      · rw [List.head?_append]
        rw [List.head?_append] at hh
        rcases l with _ | ⟨x, xs⟩ <;> simp_all
      · simp [List.getLast?_concat]
      · simp only [sumLengths, List.map_append, List.sum_append, List.map_cons,
          List.map_nil, List.sum_cons, List.sum_nil] at hsum ⊢
        omega
    · exact ⟨a, hh, by simp [List.getLast?_concat], hsum⟩

/-- Alternation step: `add_entry` preserves the alternating-status chain. -/
theorem add_entry_alternating (tl : GatusTimeline) (e : GatusData)
    (h : alternating tl.history) : alternating (tl.add_entry e).history := by
  obtain ⟨nm, hist⟩ := tl
  rcases List.eq_nil_or_concat hist with hn | ⟨l, a, rfl⟩
  · rw [add_entry_nil _ _ hn]
    exact List.chain'_singleton _
  · simp only [List.concat_eq_append] at h ⊢
    rw [add_entry_concat]
    split
    · rename_i hst
      refine List.Chain'.append h (List.chain'_singleton _) ?_
      intro x hx y hy
      rw [List.getLast?_concat] at hx
      simp only [Option.mem_def, Option.some_inj] at hx
      simp only [List.head?_cons, Option.mem_def, Option.some_inj] at hy
      subst hx
      subst hy
      simp [hst]
    · exact h

/-- Generic counting partition for a boolean predicate and its negation. -/
theorem length_filter_not {α : Type} (p : α → Bool) (l : List α) :
    (l.filter p).length + (l.filter (fun a => !(p a))).length = l.length := by
  induction l with
  | nil => rfl
  | cons x xs ih =>
    cases hx : p x <;> simp only [List.filter_cons, hx, Bool.not_false, Bool.not_true,
      Bool.false_eq_true, Bool.true_eq_false, eq_self_iff_true, if_true, if_false,
      List.length_cons] <;> omega

/-- Generic duration partition for a boolean predicate and its negation. -/
theorem sumLengths_filter_not (p : GatusEvent → Bool) (l : List GatusEvent) :
    sumLengths (l.filter p) + sumLengths (l.filter (fun a => !(p a))) = sumLengths l := by
  induction l with
  | nil => rfl
  | cons x xs ih =>
    cases hx : p x <;> simp only [sumLengths, List.filter_cons, hx, Bool.not_false,
      Bool.not_true, Bool.false_eq_true, Bool.true_eq_false, eq_self_iff_true, if_true,
      if_false, List.map_cons, List.sum_cons] at ih ⊢ <;> omega

/-- Pointwise identity relating the down-filter to the negated up-filter. -/
theorem filter_status_false_eq (h : List GatusEvent) :
    h.filter (fun ev => ev.status == false)
      = h.filter (fun ev => !(ev.status == true)) := by
  apply List.filter_congr
  intro a _
  cases a.status <;> rfl

/-- Counting partition: intervals with status `true` and with status `false`
together exhaust the history. -/
theorem length_filter_status (h : List GatusEvent) :
    (h.filter (fun ev => ev.status == true)).length
      + (h.filter (fun ev => ev.status == false)).length = h.length := by
  rw [filter_status_false_eq]
  exact length_filter_not _ h

/-- Duration partition: lengths of `true` and `false` intervals sum to the
total of all completed lengths. -/
theorem sumLengths_filter_status (h : List GatusEvent) :
    sumLengths (h.filter (fun ev => ev.status == true))
      + sumLengths (h.filter (fun ev => ev.status == false)) = sumLengths h := by
  rw [filter_status_false_eq]
  exact sumLengths_filter_not _ h

/-- Sum of an if-expression over a boolean and its complement cases. -/
theorem if_bool_both (b : Bool) (x : Int) :
    ((if b = true then x else 0) + (if b = false then x else 0)) = x := by
  cases b <;> simp

/-- Closed form of `total_events` on a nonempty history. -/
theorem total_events_eq (tl : GatusTimeline) (now : Int) (event : Bool) (h0 le : GatusEvent)
    (hh : tl.history.head? = some h0) (hl : tl.history.getLast? = some le) :
    tl.total_events now event = some
      (((tl.history.filter (fun ev => ev.status == event)).length : Int)
        + ((if h0.status = event then -1 else 0)
          + (if (!le.status) = event then 1 else 0))) := by
  unfold total_events end_
  rw [hl, hh]
  simp only [Option.map_some', Option.some_inj]
  split <;> split <;> omega

/-- Closed form of `total_time` on a nonempty history. -/
theorem total_time_eq (tl : GatusTimeline) (now : Int) (event : Bool) (le : GatusEvent)
    (hl : tl.history.getLast? = some le) :
    tl.total_time now event = some
      (sumLengths (tl.history.filter (fun ev => ev.status == event))
        + (if (!le.status) = event then now - le.end_data else 0)) := by
  unfold total_time end_
  rw [hl]
  simp only [Option.map_some', Option.some_inj, sumLengths]

/-- Up-count plus down-count equals the number of completed intervals. -/
theorem total_events_sum (tl : GatusTimeline) (now : Int) (h0 le : GatusEvent)
    (hh : tl.history.head? = some h0) (hl : tl.history.getLast? = some le) :
    ∃ a b, tl.total_events now true = some a ∧ tl.total_events now false = some b ∧
      a + b = (tl.history.length : Int) := by
  refine ⟨_, _, total_events_eq tl now true h0 le hh hl,
    total_events_eq tl now false h0 le hh hl, ?_⟩
  have hpart := length_filter_status tl.history
  have h1 := if_bool_both h0.status (-1)
  have h2 := if_bool_both (!le.status) 1
  omega

/-- Up-duration plus down-duration equals completed lengths plus the open
interval's length. -/
theorem total_time_sum (tl : GatusTimeline) (now : Int) (le : GatusEvent)
    (hl : tl.history.getLast? = some le) :
    ∃ a b, tl.total_time now true = some a ∧ tl.total_time now false = some b ∧
      a + b = sumLengths tl.history + (now - le.end_data) := by
  refine ⟨_, _, total_time_eq tl now true le hl, total_time_eq tl now false le hl, ?_⟩
  have hpart := sumLengths_filter_status tl.history
  have h1 := if_bool_both (!le.status) (now - le.end_data)
  omega

/-- Folding observations never empties a nonempty history. -/
theorem foldl_ne_nil (l : List GatusData) (tl : GatusTimeline) (h : tl.history ≠ []) :
    (l.foldl add_entry tl).history ≠ [] := by
  induction l generalizing tl with
  | nil => exact h
  | cons e rest ih => simpa using ih (tl.add_entry e) (add_entry_ne_nil tl e)

/-- Fold invariant: the history grows by exactly one interval per genuine
flip of the observation sequence. -/
theorem foldl_length_flips (rest : List GatusData) (tl : GatusTimeline) (prev : Bool)
    (le : GatusEvent) (hl : tl.history.getLast? = some le) (hst : le.status = !prev) :
    (rest.foldl add_entry tl).history.length = tl.history.length + countFlips prev rest := by
  induction rest generalizing tl prev le with
  | nil => simp [countFlips]
  | cons e rest ih =>
    obtain ⟨le2, hl2, hst2⟩ := add_entry_getLast? tl e
    have hlen := add_entry_length tl e le hl
    have hrec := ih (tl.add_entry e) e.status le2 hl2 hst2
    simp only [List.foldl_cons] at hrec ⊢
    rw [hrec, hlen]
    have hif : (if le.status = e.status then 1 else 0) = (if e.status = prev then 0 else 1) := by
      rw [hst]; cases prev <;> cases e.status <;> simp
    rw [hif]
    simp only [countFlips]
    omega

/-- Fold invariant: the first interval survives the fold and the completed
lengths telescope from the first to the last recorded boundary. -/
theorem foldl_telescope (rest : List GatusData) (tl : GatusTimeline) (h0 le : GatusEvent)
    (hh : tl.history.head? = some h0) (hl : tl.history.getLast? = some le)
    (hsum : sumLengths tl.history = le.end_data - h0.end_data) :
    ∃ le2, (rest.foldl add_entry tl).history.head? = some h0 ∧
      (rest.foldl add_entry tl).history.getLast? = some le2 ∧
      sumLengths (rest.foldl add_entry tl).history = le2.end_data - h0.end_data := by
  induction rest generalizing tl le with
  | nil => exact ⟨le, hh, hl, hsum⟩
  | cons e rest ih =>
    obtain ⟨le2, hh2, hl2, hsum2⟩ := add_entry_telescope tl e h0 le hh hl hsum
    simpa using ih (tl.add_entry e) le2 hh2 hl2 hsum2

/-- Fold invariant: alternation of completed-interval statuses is preserved. -/
theorem foldl_alternating (l : List GatusData) (tl : GatusTimeline)
    (h : alternating tl.history) : alternating (l.foldl add_entry tl).history := by
  induction l generalizing tl with
  | nil => exact h
  | cons e rest ih => simpa using ih (tl.add_entry e) (add_entry_alternating tl e h)

end GatusTimeline

/-- Updating the timeline matching an entity name leaves the name sequence of
the accumulator unchanged. -/
theorem map_name_update (acc : List GatusTimeline) (e : GatusData) :
    (acc.map (fun t => if t.name == e.labber then t.add_entry e else t)).map
      GatusTimeline.name = acc.map GatusTimeline.name := by
  induction acc with
  | nil => rfl
  | cons t ts ih =>
    simp only [List.map_cons, ih, List.cons.injEq, and_true]
    split <;> simp

/-- Step effect of `addToTimelines` on the name sequence: append the entity
name exactly when it has not been seen before. -/
theorem addToTimelines_names (acc : List GatusTimeline) (e : GatusData) :
    (GatusTimeline.addToTimelines acc e).map GatusTimeline.name =
      (if e.labber ∈ acc.map GatusTimeline.name then acc.map GatusTimeline.name
       else acc.map GatusTimeline.name ++ [e.labber]) := by
  have hmem : ((acc.any fun t => t.name == e.labber) = true) ↔
      e.labber ∈ acc.map GatusTimeline.name := by
    simp only [List.any_eq_true, List.mem_map, beq_iff_eq]
  unfold GatusTimeline.addToTimelines
  by_cases hm : e.labber ∈ acc.map GatusTimeline.name
  · rw [if_pos (hmem.mpr hm), if_pos hm]
    exact map_name_update acc e
  · rw [if_neg (fun hc => hm (hmem.mp hc)), if_neg hm]
    simp

/-- Name sequence of the `from_data` fold: first-seen entity names appended
to the accumulator's names. -/
theorem from_data_names_aux (l : List GatusData) (acc : List GatusTimeline) :
    (l.foldl GatusTimeline.addToTimelines acc).map GatusTimeline.name =
      l.foldl (fun ns e => if e.labber ∈ ns then ns else ns ++ [e.labber])
        (acc.map GatusTimeline.name) := by
  induction l generalizing acc with
  | nil => rfl
  | cons e rest ih =>
    simp only [List.foldl_cons]
    rw [ih, addToTimelines_names]

/-- Every timeline in the accumulator keeps a nonempty history through one
`addToTimelines` step. -/
theorem addToTimelines_ne_nil (acc : List GatusTimeline) (e : GatusData)
    (h : ∀ tl ∈ acc, tl.history ≠ []) :
    ∀ tl ∈ GatusTimeline.addToTimelines acc e, tl.history ≠ [] := by
  intro tl htl
  unfold GatusTimeline.addToTimelines at htl
  split at htl
  · obtain ⟨t, ht, rfl⟩ := List.mem_map.mp htl
    split
    · exact GatusTimeline.add_entry_ne_nil _ _
    · exact h t ht
  · rcases List.mem_append.mp htl with hacc | hnew
    · exact h tl hacc
    · rw [List.mem_singleton.mp hnew]
      exact GatusTimeline.add_entry_ne_nil _ _

/-- Every timeline in the result of the `from_data` fold has a nonempty
history, given that the accumulator's timelines do. -/
theorem from_data_ne_nil_aux (l : List GatusData) (acc : List GatusTimeline)
    (h : ∀ tl ∈ acc, tl.history ≠ []) :
    ∀ tl ∈ l.foldl GatusTimeline.addToTimelines acc, tl.history ≠ [] := by
  induction l generalizing acc with
  | nil => exact h
  | cons e rest ih =>
    simp only [List.foldl_cons]
    exact ih _ (addToTimelines_ne_nil acc e h)

/-- Per-entity fold: up-duration plus down-duration spans exactly from the
first observation's timestamp to `now`. -/
theorem foldEntity_time_span (name : String) (e0 : GatusData) (rest : List GatusData)
    (now : Int) :
    ∃ a b, (foldEntity name (e0 :: rest)).total_time now true = some a ∧
      (foldEntity name (e0 :: rest)).total_time now false = some b ∧
      a + b = now - e0.date := by
  unfold foldEntity
  simp only [List.foldl_cons, GatusTimeline.add_entry_nil ⟨name, []⟩ e0 rfl]
  obtain ⟨le2, hh, hl, hsum⟩ :=
    GatusTimeline.foldl_telescope rest ⟨name, [⟨0, e0.date, !e0.status⟩]⟩
      ⟨0, e0.date, !e0.status⟩ ⟨0, e0.date, !e0.status⟩ rfl rfl (by simp [sumLengths])
  obtain ⟨a, b, ha, hb, hab⟩ := GatusTimeline.total_time_sum _ now le2 hl
  refine ⟨a, b, ha, hb, ?_⟩
  rw [hab, hsum]
  ring

/-- Membership test of the timelines dict, phrased through the name list. -/
theorem any_name_eq_true_iff (acc : List GatusTimeline) (s : String) :
    ((acc.any fun t => t.name == s) = true) ↔ s ∈ acc.map GatusTimeline.name := by
  simp only [List.any_eq_true, List.mem_map, beq_iff_eq]

/-- One `addToTimelines` step keeps every accumulator timeline equal to the
per-entity fold of its own observations seen so far, and keeps the name list
in sync with the labels seen so far. -/
theorem addToTimelines_tracks (processed : List GatusData) (acc : List GatusTimeline)
    (e : GatusData)
    (hfold : ∀ tl ∈ acc,
      tl = foldEntity tl.name (processed.filter (fun d => d.labber == tl.name)))
    (hnames : ∀ nm, nm ∈ acc.map GatusTimeline.name ↔ ∃ d ∈ processed, d.labber = nm) :
    (∀ tl ∈ GatusTimeline.addToTimelines acc e,
      tl = foldEntity tl.name ((processed ++ [e]).filter (fun d => d.labber == tl.name)))
    ∧ (∀ nm, nm ∈ (GatusTimeline.addToTimelines acc e).map GatusTimeline.name ↔
        ∃ d ∈ processed ++ [e], d.labber = nm) := by
  constructor
  · intro tl htl
    unfold GatusTimeline.addToTimelines at htl
    split at htl
    · rename_i hc
      obtain ⟨t, ht, rfl⟩ := List.mem_map.mp htl
      by_cases hn : (t.name == e.labber) = true
      · rw [if_pos hn]
        have hname : e.labber = t.name := (eq_of_beq hn).symm
        simp only [GatusTimeline.add_entry_name]
        rw [List.filter_append]
        have hfe : [e].filter (fun d => d.labber == t.name) = [e] := by
          simp [List.filter, hname]
        rw [hfe]
        unfold foldEntity
        rw [List.foldl_append]
        simp only [List.foldl_cons, List.foldl_nil]
        have hrec := hfold t ht
        unfold foldEntity at hrec
        rw [← hrec]
      · rw [if_neg hn]
        have hname : ¬(e.labber = t.name) := fun hx => hn (beq_iff_eq.mpr hx.symm)
        rw [List.filter_append]
        have hfe : [e].filter (fun d => d.labber == t.name) = [] := by
          have hb : (e.labber == t.name) = false := beq_eq_false_iff_ne.mpr hname
          simp [List.filter, hb]
        rw [hfe, List.append_nil]
        exact hfold t ht
    · rename_i hc
      have hnm : ¬(e.labber ∈ acc.map GatusTimeline.name) := fun hx =>
        hc ((any_name_eq_true_iff acc e.labber).mpr hx)
      rcases List.mem_append.mp htl with hacc | hnew
      · have hname : ¬(e.labber = tl.name) := by
          intro hx
          exact hnm (hx ▸ List.mem_map_of_mem GatusTimeline.name hacc)
        rw [List.filter_append]
        have hfe : [e].filter (fun d => d.labber == tl.name) = [] := by
          have hb : (e.labber == tl.name) = false := beq_eq_false_iff_ne.mpr hname
          simp [List.filter, hb]
        rw [hfe, List.append_nil]
        exact hfold tl hacc
      · rw [List.mem_singleton.mp hnew]
        simp only [GatusTimeline.add_entry_name]
        rw [List.filter_append]
        have hpe : processed.filter (fun d => d.labber == e.labber) = [] := by
          rw [List.filter_eq_nil_iff]
          intro d hd
          simp only [beq_iff_eq, Bool.not_eq_true, decide_eq_false_iff_not]
          intro hlab
          exact hnm ((hnames e.labber).mpr ⟨d, hd, hlab⟩)
        have hfe : [e].filter (fun d => d.labber == e.labber) = [e] := by
          simp [List.filter]
        rw [hpe, hfe, List.nil_append]
        unfold foldEntity
        simp only [List.foldl_cons, List.foldl_nil]
  · intro nm
    rw [addToTimelines_names]
    by_cases hm : e.labber ∈ acc.map GatusTimeline.name
    · rw [if_pos hm]
      rw [hnames nm]
      constructor
      · rintro ⟨d, hd, hdl⟩
        exact ⟨d, List.mem_append_left _ hd, hdl⟩
      · rintro ⟨d, hd, hdl⟩
        rcases List.mem_append.mp hd with h1 | h2
        · exact ⟨d, h1, hdl⟩
        · obtain ⟨d2, hd2, hdl2⟩ := (hnames e.labber).mp hm
          rw [List.mem_singleton.mp h2] at hdl
          exact ⟨d2, hd2, by rw [hdl2, hdl]⟩
    · rw [if_neg hm]
      simp only [List.mem_append, List.mem_singleton, hnames nm]
      constructor
      · rintro (⟨d, hd, hdl⟩ | hnm2)
        · exact ⟨d, Or.inl hd, hdl⟩
        · exact ⟨e, Or.inr rfl, hnm2.symm⟩
      · rintro ⟨d, hd | hd, hdl⟩
        · exact Or.inl ⟨d, hd, hdl⟩
        · rw [hd] at hdl
          exact Or.inr hdl.symm

/-- Fold version of `addToTimelines_tracks` across a remaining suffix. -/
theorem foldl_addToTimelines_tracks (rest : List GatusData) :
    ∀ (processed : List GatusData) (acc : List GatusTimeline),
    (∀ tl ∈ acc,
      tl = foldEntity tl.name (processed.filter (fun d => d.labber == tl.name))) →
    (∀ nm, nm ∈ acc.map GatusTimeline.name ↔ ∃ d ∈ processed, d.labber = nm) →
    ∀ tl ∈ rest.foldl GatusTimeline.addToTimelines acc,
      tl = foldEntity tl.name ((processed ++ rest).filter (fun d => d.labber == tl.name)) := by
  induction rest with
  | nil =>
    intro processed acc h1 _ tl htl
    simpa using h1 tl htl
  | cons e rest ih =>
    intro processed acc h1 h2 tl htl
    obtain ⟨h1a, h2a⟩ := addToTimelines_tracks processed acc e h1 h2
    have hres := ih (processed ++ [e]) (GatusTimeline.addToTimelines acc e) h1a h2a tl
      (by simpa using htl)
    simpa [List.append_assoc] using hres

/-- Bridge between `from_data` and the per-entity fold: each returned
timeline is exactly the fold of `add_entry` over that entity's observations
in input order, from a freshly constructed timeline. -/
theorem from_data_eq_foldEntity (l : List GatusData) (tl : GatusTimeline)
    (htl : tl ∈ GatusTimeline.from_data l) :
    tl = foldEntity tl.name (l.filter (fun d => d.labber == tl.name)) := by
  have hres := foldl_addToTimelines_tracks l [] []
    (by intro t ht; simp at ht) (by intro nm; simp) tl
    (by simpa [GatusTimeline.from_data] using htl)
  simpa using hres

/-- C5: for every entity and every input sequence of observations, after the
per-entity fold (repeated `add_entry` calls) the statuses of consecutive
completed intervals in the history strictly alternate. -/
theorem c5_history_alternates (name : String) (l : List GatusData) :
    alternating (foldEntity name l).history := by
  unfold foldEntity
  exact GatusTimeline.foldl_alternating l ⟨name, []⟩ List.chain'_nil

/-- C6: on a nonempty history whose last interval's status differs from the
incoming observation's status (the observation repeats the previous raw
status, no flip), `add_entry` leaves the timeline entirely unchanged. -/
theorem c6_no_flip_no_change (tl : GatusTimeline) (e : GatusData) (le : GatusEvent)
    (hl : tl.history.getLast? = some le) (hne : le.status ≠ e.status) :
    tl.add_entry e = tl := by
  obtain ⟨nm, hist⟩ := tl
  rcases List.eq_nil_or_concat hist with h0 | ⟨l, a, rfl⟩
  · subst h0
    simp at hl
  · simp only [List.concat_eq_append] at hl ⊢
    rw [List.getLast?_concat] at hl
    obtain rfl : a = le := by injection hl
    rw [GatusTimeline.add_entry_concat, if_neg hne]

/-- Witness for C6: a concrete repeated-status observation leaves the
timeline unchanged. -/
theorem c6_no_flip_no_change_witness :
    GatusTimeline.add_entry ⟨"api", [⟨0, 0, true⟩]⟩ ⟨"api", 5, false⟩
      = ⟨"api", [⟨0, 0, true⟩]⟩ :=
  c6_no_flip_no_change ⟨"api", [⟨0, 0, true⟩]⟩ ⟨"api", 5, false⟩ ⟨0, 0, true⟩
    (by decide) (by decide)

/-- C7: the first observation of an entity (empty history) appends exactly
one interval, with duration zero, end boundary at the observation's
timestamp, and the logical negation of its reported status. -/
theorem c7_first_observation_seed (tl : GatusTimeline) (e : GatusData)
    (h : tl.history = []) :
    (tl.add_entry e).history =
      [{ length := 0, end_data := e.date, status := !e.status }] := by
  rw [GatusTimeline.add_entry_nil tl e h]

/-- Witness for C7: a concrete first observation seeds the expected zero-length
complemented interval. -/
theorem c7_first_observation_seed_witness :
    (GatusTimeline.add_entry ⟨"api", []⟩ ⟨"api", 7, true⟩).history
      = [{ length := 0, end_data := 7, status := false }] :=
  c7_first_observation_seed ⟨"api", []⟩ ⟨"api", 7, true⟩ rfl

/-- C10: every timeline returned by `from_data` has a nonempty history, so
the open-interval computation and the metric functions, which index
`history[-1]` and `history[0]`, never hit the empty-list failure. -/
theorem c10_from_data_history_ne_nil (l : List GatusData) (now : Int) (event : Bool)
    (tl : GatusTimeline) (htl : tl ∈ GatusTimeline.from_data l) :
    tl.history ≠ [] ∧ (tl.end_ now).isSome ∧ (tl.total_events now event).isSome ∧
      (tl.total_time now event).isSome := by
  have hne : tl.history ≠ [] :=
    from_data_ne_nil_aux l [] (by intro t ht; simp at ht) tl htl
  have hle : tl.history.getLast? = some (tl.history.getLast hne) :=
    List.getLast?_eq_getLast _ hne
  refine ⟨hne, ?_, ?_, ?_⟩
  · simp [GatusTimeline.end_, hle]
  · simp [GatusTimeline.total_events, GatusTimeline.end_, hle]
  · simp [GatusTimeline.total_time, GatusTimeline.end_, hle]

/-- Witness for C10 at a concrete one-observation input. -/
theorem c10_from_data_history_ne_nil_witness :
    (GatusTimeline.mk "api" [⟨0, 0, false⟩]).history ≠ [] ∧
      (GatusTimeline.end_ ⟨"api", [⟨0, 0, false⟩]⟩ 5).isSome ∧
      (GatusTimeline.total_events ⟨"api", [⟨0, 0, false⟩]⟩ 5 true).isSome ∧
      (GatusTimeline.total_time ⟨"api", [⟨0, 0, false⟩]⟩ 5 true).isSome :=
  c10_from_data_history_ne_nil [⟨"api", 0, true⟩] 5 true ⟨"api", [⟨0, 0, false⟩]⟩
    (by decide)

/-- C2 (amended): for every entity with at least one observation, the up-count
plus the down-count equals exactly one more than the number of genuine status
flips detected in the observation sequence. -/
theorem c2_counts_one_more_than_flips (name : String) (e0 : GatusData)
    (rest : List GatusData) (now : Int) :
    ∃ a b, (foldEntity name (e0 :: rest)).total_events now true = some a ∧
      (foldEntity name (e0 :: rest)).total_events now false = some b ∧
      a + b = 1 + (countFlips e0.status rest : Int) := by
  unfold foldEntity
  simp only [List.foldl_cons, GatusTimeline.add_entry_nil ⟨name, []⟩ e0 rfl]
  have hlen := GatusTimeline.foldl_length_flips rest ⟨name, [⟨0, e0.date, !e0.status⟩]⟩
    e0.status ⟨0, e0.date, !e0.status⟩ rfl rfl
  obtain ⟨le2, hh, hl, _⟩ :=
    GatusTimeline.foldl_telescope rest ⟨name, [⟨0, e0.date, !e0.status⟩]⟩
      ⟨0, e0.date, !e0.status⟩ ⟨0, e0.date, !e0.status⟩ rfl rfl (by simp [sumLengths])
  obtain ⟨a, b, ha, hb, hab⟩ :=
    GatusTimeline.total_events_sum _ now ⟨0, e0.date, !e0.status⟩ le2 hh hl
  refine ⟨a, b, ha, hb, ?_⟩
  rw [hab, hlen]
  push_cast
  simp

/-- C2 (counterexample): two same-status observations of one entity give an
up-count plus down-count of 1, not the observation count 2 claimed by the
`(number of observations) − 1 + 1` formula. -/
theorem c2_counterexample :
    (foldEntity "api" [⟨"api", 0, true⟩, ⟨"api", 1, true⟩]).total_events 5 true = some 1 ∧
    (foldEntity "api" [⟨"api", 0, true⟩, ⟨"api", 1, true⟩]).total_events 5 false = some 0 ∧
    ¬((1 : Int) + 0 =
      (([⟨"api", 0, true⟩, ⟨"api", 1, true⟩] : List GatusData).length : Int) - 1 + 1) := by
  refine ⟨by decide, by decide, by decide⟩

/-- C4: for every entity with at least one observation, up-duration plus
down-duration equals `now` minus the timestamp of that entity's first
observation. -/
theorem c4_total_time_spans (name : String) (e0 : GatusData) (rest : List GatusData)
    (now : Int) :
    ∃ a b, (foldEntity name (e0 :: rest)).total_time now true = some a ∧
      (foldEntity name (e0 :: rest)).total_time now false = some b ∧
      a + b = now - e0.date :=
  foldEntity_time_span name e0 rest now

/-- C9: with `now` at or after the first observation, the uptime percentage
is 100 when the total computed duration is zero, and otherwise equals
`100 * duration(true) / (duration(true) + duration(false))`. -/
theorem c9_uptime_percentage_form (name : String) (e0 : GatusData)
    (rest : List GatusData) (now : Int) (hnow : e0.date ≤ now) :
    ∃ up down, (foldEntity name (e0 :: rest)).total_time now true = some up ∧
      (foldEntity name (e0 :: rest)).total_time now false = some down ∧
      (up + down = 0 →
        uptime_percentage (foldEntity name (e0 :: rest)) now = some 100) ∧
      (up + down ≠ 0 →
        uptime_percentage (foldEntity name (e0 :: rest)) now =
          some (100 * (up : ℚ) / ((up : ℚ) + (down : ℚ)))) := by
  obtain ⟨up, down, hup, hdown, hsum⟩ := foldEntity_time_span name e0 rest now
  refine ⟨up, down, hup, hdown, ?_, ?_⟩
  · intro hz
    unfold uptime_percentage
    rw [hup, hdown]
    dsimp only
    rw [if_neg (by omega)]
  · intro hnz
    have hpos : up + down > 0 := by omega
    unfold uptime_percentage
    rw [hup, hdown]
    dsimp only
    rw [if_pos hpos]
    congr 1
    push_cast
    ring

/-- Witness for C9 at a concrete single-observation input. -/
theorem c9_uptime_percentage_form_witness :
    ∃ up down, (foldEntity "api" [⟨"api", 0, true⟩]).total_time 3 true = some up ∧
      (foldEntity "api" [⟨"api", 0, true⟩]).total_time 3 false = some down ∧
      (up + down = 0 →
        uptime_percentage (foldEntity "api" [⟨"api", 0, true⟩]) 3 = some 100) ∧
      (up + down ≠ 0 →
        uptime_percentage (foldEntity "api" [⟨"api", 0, true⟩]) 3 =
          some (100 * (up : ℚ) / ((up : ℚ) + (down : ℚ)))) :=
  c9_uptime_percentage_form "api" ⟨"api", 0, true⟩ [] 3 (by decide)

/-- C8: a single observation `(api, t0, true)` yields the seed history
`[⟨0, t0, false⟩]`, an open interval of status `true` spanning to `now`,
up-count 1, down-count 0, up-duration `now − t0`, and uptime 100%. -/
theorem c8_single_observation (t0 now : Int) :
    GatusTimeline.from_data [⟨"api", t0, true⟩] = [⟨"api", [⟨0, t0, false⟩]⟩] ∧
    GatusTimeline.end_ ⟨"api", [⟨0, t0, false⟩]⟩ now = some ⟨now - t0, now, true⟩ ∧
    GatusTimeline.total_events ⟨"api", [⟨0, t0, false⟩]⟩ now true = some 1 ∧
    GatusTimeline.total_events ⟨"api", [⟨0, t0, false⟩]⟩ now false = some 0 ∧
    GatusTimeline.total_time ⟨"api", [⟨0, t0, false⟩]⟩ now true = some (now - t0) ∧
    uptime_percentage ⟨"api", [⟨0, t0, false⟩]⟩ now = some 100 := by
  have h1 : GatusTimeline.total_time ⟨"api", [⟨0, t0, false⟩]⟩ now true
      = some (now - t0) := by
    simp [GatusTimeline.total_time, GatusTimeline.end_]
  have h2 : GatusTimeline.total_time ⟨"api", [⟨0, t0, false⟩]⟩ now false
      = some 0 := by
    simp [GatusTimeline.total_time, GatusTimeline.end_]
  refine ⟨?_, ?_, ?_, ?_, h1, ?_⟩
  · simp [GatusTimeline.from_data, GatusTimeline.addToTimelines, GatusTimeline.add_entry]
  · simp [GatusTimeline.end_]
  · simp [GatusTimeline.total_events, GatusTimeline.end_]
  · simp [GatusTimeline.total_events, GatusTimeline.end_]
  · unfold uptime_percentage
    rw [h1, h2]
    dsimp only
    by_cases hpos : now - t0 + 0 > 0
    · rw [if_pos hpos]
      have hne : ((now - t0 : Int) : ℚ) ≠ 0 := by
        rw [Int.cast_ne_zero]
        omega
      rw [add_zero, div_self hne, one_mul]
    · rw [if_neg hpos]

/-- C1 (amended): the sequence of rows the presenter loop consumes is in
first-seen entity order of the input sequence; no sorting by uptime
percentage takes place. -/
theorem c1_rows_first_seen_order (l : List GatusData) (now : Int) :
    (metrics_rows l now).map Prod.fst = firstSeenNames l := by
  unfold metrics_rows firstSeenNames GatusTimeline.from_data
  rw [List.map_map]
  exact from_data_names_aux l []

/-- C1 (counterexample): three entities with 0%, 50% and 100% uptime, first
seen in that order, are presented as `[0%, 50%, 100%]` — not sorted by
uptime percentage descending. -/
theorem c1_counterexample :
    metrics_rows
        [⟨"down-svc", 0, false⟩, ⟨"half-svc", 0, true⟩, ⟨"half-svc", 5, false⟩,
         ⟨"up-svc", 0, true⟩] 10
      = [("down-svc", some 0), ("half-svc", some 50), ("up-svc", some 100)] ∧
    ¬ sortedByUptimeDesc
        (metrics_rows
          [⟨"down-svc", 0, false⟩, ⟨"half-svc", 0, true⟩, ⟨"half-svc", 5, false⟩,
           ⟨"up-svc", 0, true⟩] 10) := by
  have heval : metrics_rows
      [⟨"down-svc", 0, false⟩, ⟨"half-svc", 0, true⟩, ⟨"half-svc", 5, false⟩,
       ⟨"up-svc", 0, true⟩] 10
      = [("down-svc", some 0), ("half-svc", some 50), ("up-svc", some 100)] := by
    simp [metrics_rows, GatusTimeline.from_data, GatusTimeline.addToTimelines,
      GatusTimeline.add_entry, uptime_percentage, GatusTimeline.total_time,
      GatusTimeline.end_]
    norm_num
  refine ⟨heval, ?_⟩
  rw [heval]
  intro hsort
  unfold sortedByUptimeDesc at hsort
  rw [List.pairwise_cons] at hsort
  have hrel := hsort.1 ("up-svc", some 100) (by simp)
  have hle : (100 : ℚ) ≤ 0 := hrel 0 100 rfl rfl
  norm_num at hle

/-- C3 (counterexample): a marker-carrying record with an absent description
raises (`TypeError` from `re.search` on `None`) instead of producing an
Observation, and one with an empty fields sequence raises (`IndexError`
from `fields[0]`). -/
theorem c3_counterexample :
    hasMarker ⟨some ":helmet_with_white_cross: Gatus", none, [⟨"x"⟩]⟩ = true ∧
    parse_gatus_embed ⟨some ":helmet_with_white_cross: Gatus", none, [⟨"x"⟩]⟩ 0
      = .error "TypeError" ∧
    hasMarker ⟨some ":helmet_with_white_cross: Gatus", some "x", []⟩ = true ∧
    parse_gatus_embed ⟨some ":helmet_with_white_cross: Gatus", some "x", []⟩ 0
      = .error "IndexError" := by
  refine ⟨by decide, rfl, by decide, rfl⟩

/-- C3 (amended): a marker-carrying record whose description is a present
string and whose fields sequence is nonempty always yields an Observation;
when the name pattern does not match, its entity name is `"Unknown"`. -/
theorem c3_parse_with_desc_and_fields (embed : Embed) (date : Int) (desc : String)
    (hm : hasMarker embed = true) (hd : embed.description = some desc)
    (hf : embed.fields ≠ []) :
    ∃ d, parse_gatus_embed embed date = .ok d ∧ d.date = date ∧
      (regexSearchAlert desc = none → d.labber = "Unknown") := by
  obtain ⟨t, dsc, fs⟩ := embed
  simp only at hd
  subst hd
  cases fs with
  | nil => exact absurd rfl hf
  | cons f0 fs =>
    refine ⟨_, rfl, rfl, ?_⟩
    intro hnone
    simp [parse_gatus_embed, hnone]

/-- Witness for C3 (amended) at a concrete pattern-missing record. -/
theorem c3_parse_with_desc_and_fields_witness :
    ∃ d, parse_gatus_embed
        ⟨some ":helmet_with_white_cross: Gatus", some "maintenance note",
         [⟨"all good"⟩]⟩ 4 = .ok d ∧ d.date = 4 ∧
      (regexSearchAlert "maintenance note" = none → d.labber = "Unknown") :=
  c3_parse_with_desc_and_fields
    ⟨some ":helmet_with_white_cross: Gatus", some "maintenance note", [⟨"all good"⟩]⟩
    4 "maintenance note" (by decide) rfl (by decide)

end GatusStatus
